import Mathlib

/-!
# Verification of falkon's CUDA linear-algebra helpers

Shallow embedding of `falkon/la_helpers/cuda/utils.cu`: triangular
copy/scale kernels, the triangular index mapper, the tiled transpose
kernels, and the dispatching entry points (`cuda_copy_triang`,
`cuda_mul_triang`, `cuda_vec_mul_triang`, `cuda_transpose`).

Modelling conventions:
- A device buffer is a total function `Nat → ℚ` (scalar values modelled
  as rationals; the C++ code instantiates `float`/`double`).
- A `torch::Tensor` is a `Tensor` structure carrying sizes, strides,
  device placement and the flat buffer.  Logical element `(r, c)` lives
  at flat offset `r * stride0 + c * stride1`, as in PyTorch.
- Each `__global__` kernel is modelled by the aggregate function it
  computes on the buffer.  In every kernel below the set of flat indices
  written by the full grid is disjoint from the set of flat indices read
  (and each index is written by exactly one thread), so the parallel
  execution is equivalent to this single pure function; each definition
  records, index for index, the write set and the read expression of the
  source loop.
- `AT_ERROR` is modelled by `Except.error` with the source's message.
-/

namespace Falkon

/-- A `torch::Tensor` restricted to what the source consults: 2-D sizes,
strides, CUDA placement, device index, and the flat data buffer.
Logical element `(r, c)` is `data (r * stride0 + c * stride1)`. -/
structure Tensor where
  size0 : Nat
  size1 : Nat
  stride0 : Nat
  stride1 : Nat
  device : Nat
  isCuda : Bool
  data : Nat → ℚ

/-- Logical element `(r, c)` of a tensor, via its strides. -/
def Tensor.elem (A : Tensor) (r c : Nat) : ℚ :=
  A.data (r * A.stride0 + c * A.stride1)

/-- Column-major (Fortran-contiguous) layout: `stride(0) == 1`,
`stride(1) == size(0)`. -/
def Tensor.fContig (A : Tensor) : Prop :=
  A.stride0 = 1 ∧ A.stride1 = A.size0

/-- Row-major (C-contiguous) layout: `stride(1) == 1`,
`stride(0) == size(1)`. -/
def Tensor.cContig (A : Tensor) : Prop :=
  A.stride1 = 1 ∧ A.stride0 = A.size1

/-- Model of `torch::transpose(A, 0, 1)`: swaps sizes and strides, shares the
buffer (a metadata-only transform). -/
def torch_transpose (A : Tensor) : Tensor :=
  { A with size0 := A.size1, size1 := A.size0,
           stride0 := A.stride1, stride1 := A.stride0 }

/-- Model of `device_of` from ATen: the device index of a tensor. -/
def device_of (A : Tensor) : Nat := A.device

/-- Model of `ceildiv` from the source: integer division rounding up. -/
def ceildiv (dividend divisor : Nat) : Nat :=
  let res := dividend / divisor
  if dividend % divisor ≠ 0 then res + 1 else res

/-!
## Kernels

`copy_simple_kernel_lower`: thread `i < size` runs
`col_pos = i*size; for (row_pos = i; row_pos < i + i*size; row_pos += size)
 data[col_pos] = data[row_pos]; col_pos++;`
i.e. it writes `data[i*size + k] := data[i + k*size]` for every `k < i`.
Writes hit flat indices `{i*size + k | k < i < size}` (strict upper
triangle of the column-major buffer) and reads hit `{i + k*size | k < i}`
(strict lower triangle): disjoint, so the grid computes the function
below, where a flat index `idx` decomposes as `i = idx / size`
(column), `k = idx % size` (row).
-/

/-- Aggregate effect of `copy_simple_kernel_lower` on the buffer. -/
def copy_simple_kernel_lower (size : Nat) (data : Nat → ℚ) : Nat → ℚ :=
  fun idx =>
    let i := idx / size
    let k := idx % size
    if i < size ∧ k < i then data (i + k * size) else data idx

/-- Aggregate effect of `copy_simple_kernel_upper` on the buffer:
thread `i < size` writes `data[i + k*size] := data[i*size + k]` for every
`k < i`; a written flat index decomposes as `k = idx / size` (column),
`i = idx % size` (row) with `k < i`. -/
def copy_simple_kernel_upper (size : Nat) (data : Nat → ℚ) : Nat → ℚ :=
  fun idx =>
    let k := idx / size
    let i := idx % size
    if k < i ∧ i < size then data (i * size + k) else data idx

/-- Both `tri_index_lower` and `tri_index_upper` compute
`row = (int)((-1 + sqrt((double)(8*linear_index + 1))) / 2.0)`.
For the integer arguments in range the double `sqrt` is exact, and
`⌊(√(8i+1) - 1) / 2⌋ = (Nat.sqrt (8i+1) - 1) / 2` since the floor of
`(x - 1) / 2` depends only on `⌊x⌋`.  This is that exact-real model. -/
def tri_row (linear_index : Nat) : Nat :=
  (Nat.sqrt (8 * linear_index + 1) - 1) / 2

/-- Model of `tri_index_lower`: returns `(linear_index - row*(row+1)/2, row)`. -/
def tri_index_lower (linear_index : Nat) : Nat × Nat :=
  let row := tri_row linear_index
  (linear_index - row * (row + 1) / 2, row)

/-- Model of `tri_index_upper`: returns `(row, linear_index - row*(row+1)/2)`. -/
def tri_index_upper (linear_index : Nat) : Nat × Nat :=
  let row := tri_row linear_index
  (row, linear_index - row * (row + 1) / 2)

/-- Aggregate effect of `mul_upper_diag`: thread `i < size` scales
`data[i*size + j] *= mul` for `0 ≤ j ≤ i` (`while (data <= diag_stop)`):
the upper triangle of the column-major buffer, diagonal included. -/
def mul_upper_diag (size : Nat) (mul : ℚ) (data : Nat → ℚ) : Nat → ℚ :=
  fun idx =>
    let i := idx / size
    let j := idx % size
    if i < size ∧ j ≤ i then data idx * mul else data idx

/-- Aggregate effect of `mul_upper`: thread `i < size` scales
`data[i*size + j] *= mul` for `0 ≤ j < i` (`while (data < diag_stop)`):
the strict upper triangle of the column-major buffer. -/
def mul_upper (size : Nat) (mul : ℚ) (data : Nat → ℚ) : Nat → ℚ :=
  fun idx =>
    let i := idx / size
    let j := idx % size
    if i < size ∧ j < i then data idx * mul else data idx

/-- Aggregate effect of `mul_lower_diag`: thread `i < size` starts at
`data + i*size + i` and scales while below `data + i*size + size`:
`data[i*size + j] *= mul` for `i ≤ j < size`, the lower triangle of the
column-major buffer, diagonal included. -/
def mul_lower_diag (size : Nat) (mul : ℚ) (data : Nat → ℚ) : Nat → ℚ :=
  fun idx =>
    let i := idx / size
    let j := idx % size
    if i < size ∧ i ≤ j then data idx * mul else data idx

/-- Aggregate effect of `mul_lower`: as `mul_lower_diag` but the first
increment (`data++; // Avoid touching the diagonal`) skips the diagonal:
`data[i*size + j] *= mul` for `i < j < size`. -/
def mul_lower (size : Nat) (mul : ℚ) (data : Nat → ℚ) : Nat → ℚ :=
  fun idx =>
    let i := idx / size
    let j := idx % size
    if i < size ∧ i < j then data idx * mul else data idx

/-!
## Tiled transpose kernels

`matrix_transpose_f` stages 32×32 tiles through shared memory.  At block
`(bx, by)` and thread `(lx, ly)` with unrolled offset `repeat`, the load
phase sets `shrdMem[ly+repeat][lx] = in[gy_*dim0 + gx]` for
`gx = lx + 32*bx < dim0`, `gy_ = ly + repeat + 32*by < dim1`; after the
barrier the store phase writes, at the swapped block coordinates,
`out[gy_*dim1 + gx] = shrdMem[lx][ly+repeat]` for `gx = lx + 32*by < dim1`,
`gy_ = ly + repeat + 32*bx < dim0`.  Substituting the load into the store,
the value written at `out[gy_*dim1 + gx]` is `in[gx*dim0 + gy_]`, and the
grid `(ceildiv(dim0,32), ceildiv(dim1,32))` with 32×8 blocks unrolled
four times reaches every pair `gx < dim1`, `gy_ < dim0` exactly once.
The aggregate function decomposes a written flat index as
`gx = idx % dim1`, `gy_ = idx / dim1`. -/

/-- Aggregate effect of `matrix_transpose_f` on the output buffer. -/
def matrix_transpose_f (dim0 dim1 : Nat) (inp out : Nat → ℚ) : Nat → ℚ :=
  fun idx =>
    let gx := idx % dim1
    let gy := idx / dim1
    if gx < dim1 ∧ gy < dim0 then inp (gx * dim0 + gy) else out idx

/-- Aggregate effect of `matrix_transpose_c`: the row-major variant loads
`shrdMem[lx+repeat][ly] = in[gx_*dim1 + gy]` for `gx_ = lx+repeat+32*bx <
dim0`, `gy = ly + 32*by < dim1`, and stores at swapped block coordinates
`out[gx_*dim0 + gy] = shrdMem[ly][lx+repeat]` for `gx_ = lx+repeat+32*by <
dim1`, `gy = ly + 32*bx < dim0`; substituting, the value written at
`out[gx_*dim0 + gy]` is `in[gy*dim1 + gx_]`, for every `gx_ < dim1`,
`gy < dim0`.  A written flat index decomposes as `gy = idx % dim0`,
`gx_ = idx / dim0`. -/
def matrix_transpose_c (dim0 dim1 : Nat) (inp out : Nat → ℚ) : Nat → ℚ :=
  fun idx =>
    let gy := idx % dim0
    let gx := idx / dim0
    if gy < dim0 ∧ gx < dim1 then inp (gy * dim1 + gx) else out idx

/-!
## Dispatch functions
-/

/-- Model of `cuda_vec_mul_triang`: validation prefix of the entry point.  The
source then launches `vec_mul_triang_kernel_v1`, which does not compile
(missing statement terminators, shared arrays dimensioned by the runtime
`blockDim`); only the validation behaviour and the returned handle are
modelled, which is all the claims about this entry point concern. -/
def cuda_vec_mul_triang (A v : Tensor) (upper : Bool) (side : Int) :
    Except String Tensor :=
  if !A.isCuda then .error "Input A must be a CUDA tensor."
  else if !v.isCuda then .error "Input v must be a CUDA tensor."
  else if device_of v ≠ device_of A then
    .error "Inputs A, v must be on the same CUDA device."
  else
    .ok A

/-- Model of `cuda_copy_triang(A, upper)`: checks CUDA placement; if `A` is not
column-contiguous it transposes the metadata and flips `upper`; then runs
the upper or lower copy kernel with `size = A.size(0)` (read after the
possible transpose) and transposes back. -/
def cuda_copy_triang (A : Tensor) (upper : Bool) : Except String Tensor :=
  if !A.isCuda then .error "Input A must be a CUDA tensor."
  else
    let p : Tensor × Bool × Bool :=
      if A.stride0 ≠ 1 then (torch_transpose A, !upper, true)
      else (A, upper, false)
    let A1 := p.1
    let upper1 := p.2.1
    let needs_transpose := p.2.2
    let nx := A1.size0
    let newdata :=
      if upper1 then copy_simple_kernel_upper nx A1.data
      else copy_simple_kernel_lower nx A1.data
    let A2 : Tensor := { A1 with data := newdata }
    .ok (if needs_transpose then torch_transpose A2 else A2)

/-- Model of `cuda_mul_triang(A, upper, preserve_diag, multiplier)`: checks CUDA
placement; flips `upper` when `A` is not column-contiguous (no metadata
transpose); dispatches one of the four scale kernels with
`size = A.size(0)`. -/
def cuda_mul_triang (A : Tensor) (upper preserve_diag : Bool)
    (multiplier : ℚ) : Except String Tensor :=
  if !A.isCuda then .error "Input A must be a CUDA tensor."
  else
    let upper1 := if A.stride0 ≠ 1 then !upper else upper
    let nx := A.size0
    let newdata :=
      if upper1 && preserve_diag then mul_upper nx multiplier A.data
      else if upper1 then mul_upper_diag nx multiplier A.data
      else if preserve_diag then mul_lower nx multiplier A.data
      else mul_lower_diag nx multiplier A.data
    .ok { A with data := newdata }

/-- Model of `cuda_transpose(input, output)`: checks both tensors are CUDA, checks
`input.size(0) == output.size(1) && input.size(1) == output.size(0)`,
then runs the column-major or row-major transpose kernel according to
`input.stride(0) == 1`, writing into the output buffer. -/
def cuda_transpose (input output : Tensor) : Except String Tensor :=
  if !input.isCuda then .error "Input must be a CUDA tensor."
  else if !output.isCuda then .error "Output must be a CUDA tensor."
  else if input.size0 ≠ output.size1 ∨ input.size1 ≠ output.size0 then
    .error "Input and output matrices must be of the same size."
  else
    let nx := input.size0
    let ny := input.size1
    let fortran_contig := input.stride0 = 1
    let newdata :=
      if fortran_contig then matrix_transpose_f nx ny input.data output.data
      else matrix_transpose_c nx ny input.data output.data
    .ok { output with data := newdata }

/-!
## Flat-index arithmetic helpers
-/

theorem flat_div {r n : Nat} (c : Nat) (hr : r < n) : (r + c * n) / n = c := by
  have hn : 0 < n := by omega
  rw [Nat.add_mul_div_right _ _ hn, Nat.div_eq_of_lt hr, Nat.zero_add]

theorem flat_mod {r n : Nat} (c : Nat) (hr : r < n) : (r + c * n) % n = r := by
  rw [Nat.add_mul_mod_self_right, Nat.mod_eq_of_lt hr]

/-!
## Element-level behaviour of the kernels on a column-major buffer

Flat offset `r + c * n` is element `(r, c)` of an `n × n` column-major
buffer.
-/

theorem copy_lower_at {n r c : Nat} (data : Nat → ℚ) (hr : r < n) (hc : c < n) :
    copy_simple_kernel_lower n data (r + c * n) =
      if r < c then data (c + r * n) else data (r + c * n) := by
  simp only [copy_simple_kernel_lower, flat_div c hr, flat_mod c hr]
  by_cases h : r < c
  · rw [if_pos ⟨hc, h⟩, if_pos h]
  · rw [if_neg (fun hand => h hand.2), if_neg h]

theorem copy_upper_at {n r c : Nat} (data : Nat → ℚ) (hr : r < n) (hc : c < n) :
    copy_simple_kernel_upper n data (r + c * n) =
      if c < r then data (c + r * n) else data (r + c * n) := by
  simp only [copy_simple_kernel_upper, flat_div c hr, flat_mod c hr]
  by_cases h : c < r
  · rw [if_pos ⟨h, hr⟩, if_pos h, Nat.add_comm c (r * n), Nat.mul_comm r n]
  · rw [if_neg (fun hand => h hand.1), if_neg h]

theorem mul_upper_diag_at {n r c : Nat} (mul : ℚ) (data : Nat → ℚ)
    (hr : r < n) (hc : c < n) :
    mul_upper_diag n mul data (r + c * n) =
      if r ≤ c then data (r + c * n) * mul else data (r + c * n) := by
  simp only [mul_upper_diag, flat_div c hr, flat_mod c hr]
  by_cases h : r ≤ c
  · rw [if_pos ⟨hc, h⟩, if_pos h]
  · rw [if_neg (fun hand => h hand.2), if_neg h]

theorem mul_upper_at {n r c : Nat} (mul : ℚ) (data : Nat → ℚ)
    (hr : r < n) (hc : c < n) :
    mul_upper n mul data (r + c * n) =
      if r < c then data (r + c * n) * mul else data (r + c * n) := by
  simp only [mul_upper, flat_div c hr, flat_mod c hr]
  by_cases h : r < c
  · rw [if_pos ⟨hc, h⟩, if_pos h]
  · rw [if_neg (fun hand => h hand.2), if_neg h]

theorem mul_lower_diag_at {n r c : Nat} (mul : ℚ) (data : Nat → ℚ)
    (hr : r < n) (hc : c < n) :
    mul_lower_diag n mul data (r + c * n) =
      if c ≤ r then data (r + c * n) * mul else data (r + c * n) := by
  simp only [mul_lower_diag, flat_div c hr, flat_mod c hr]
  by_cases h : c ≤ r
  · rw [if_pos ⟨hc, h⟩, if_pos h]
  · rw [if_neg (fun hand => h hand.2), if_neg h]

theorem mul_lower_at {n r c : Nat} (mul : ℚ) (data : Nat → ℚ)
    (hr : r < n) (hc : c < n) :
    mul_lower n mul data (r + c * n) =
      if c < r then data (r + c * n) * mul else data (r + c * n) := by
  simp only [mul_lower, flat_div c hr, flat_mod c hr]
  by_cases h : c < r
  · rw [if_pos ⟨hc, h⟩, if_pos h]
  · rw [if_neg (fun hand => h hand.2), if_neg h]

/-!
## Explicit forms of the dispatch functions
-/

theorem cuda_copy_triang_ok_f (A : Tensor) (upper : Bool)
    (hcuda : A.isCuda = true) (h1 : A.stride0 = 1) :
    cuda_copy_triang A upper =
      .ok { A with data := if upper then copy_simple_kernel_upper A.size0 A.data
                           else copy_simple_kernel_lower A.size0 A.data } := by
  simp [cuda_copy_triang, hcuda, h1]

theorem cuda_copy_triang_ok_c (A : Tensor) (upper : Bool)
    (hcuda : A.isCuda = true) (h1 : A.stride0 ≠ 1) :
    cuda_copy_triang A upper =
      .ok { A with data := if upper then copy_simple_kernel_lower A.size1 A.data
                           else copy_simple_kernel_upper A.size1 A.data } := by
  cases A with
  | mk s0 s1 st0 st1 dev cuda d =>
      cases upper <;>
        simp [cuda_copy_triang, torch_transpose, hcuda, if_pos h1] at hcuda h1 ⊢ <;>
        simp [h1, hcuda]

theorem cuda_mul_triang_ok_f (A : Tensor) (upper preserve_diag : Bool)
    (m : ℚ) (hcuda : A.isCuda = true) (h1 : A.stride0 = 1) :
    cuda_mul_triang A upper preserve_diag m =
      .ok { A with data :=
        if upper && preserve_diag then mul_upper A.size0 m A.data
        else if upper then mul_upper_diag A.size0 m A.data
        else if preserve_diag then mul_lower A.size0 m A.data
        else mul_lower_diag A.size0 m A.data } := by
  simp [cuda_mul_triang, hcuda, h1]

theorem cuda_mul_triang_ok_c (A : Tensor) (upper preserve_diag : Bool)
    (m : ℚ) (hcuda : A.isCuda = true) (h1 : A.stride0 ≠ 1) :
    cuda_mul_triang A upper preserve_diag m =
      .ok { A with data :=
        if (!upper) && preserve_diag then mul_upper A.size0 m A.data
        else if !upper then mul_upper_diag A.size0 m A.data
        else if preserve_diag then mul_lower A.size0 m A.data
        else mul_lower_diag A.size0 m A.data } := by
  cases upper <;> cases preserve_diag <;>
    simp [cuda_mul_triang, hcuda, if_pos h1]

theorem cuda_transpose_ok (input output : Tensor)
    (hci : input.isCuda = true) (hco : output.isCuda = true)
    (hs0 : input.size0 = output.size1) (hs1 : input.size1 = output.size0) :
    cuda_transpose input output =
      .ok { output with data :=
        if input.stride0 = 1 then
          matrix_transpose_f input.size0 input.size1 input.data output.data
        else
          matrix_transpose_c input.size0 input.size1 input.data output.data } := by
  simp [cuda_transpose, hci, hco, hs0, hs1]

/-- Pointwise description of `cuda_copy_triang` on a square contiguous
CUDA tensor, both storage orders: position `(r, c)` in the strict
opposite half receives the mirror value; everything else is unchanged. -/
theorem cuda_copy_triang_elem (A : Tensor) (upper : Bool) (n : Nat)
    (hcuda : A.isCuda = true) (h0 : A.size0 = n) (h1 : A.size1 = n)
    (hlay : A.fContig ∨ A.cContig) :
    ∃ B, cuda_copy_triang A upper = Except.ok B ∧
      B.size0 = A.size0 ∧ B.size1 = A.size1 ∧ B.stride0 = A.stride0 ∧
      B.stride1 = A.stride1 ∧ B.isCuda = A.isCuda ∧
      ∀ r c, r < n → c < n →
        B.elem r c =
          if (upper = true ∧ c < r) ∨ (upper = false ∧ r < c)
          then A.elem c r else A.elem r c := by
  rcases hlay with hf | hcc
  · obtain ⟨hs0, hs1⟩ := hf
    rw [cuda_copy_triang_ok_f A upper hcuda hs0]
    refine ⟨_, rfl, rfl, rfl, rfl, rfl, rfl, ?_⟩
    intro r c hr hc
    have off : ∀ x y : Nat, x * A.stride0 + y * A.stride1 = x + y * n := by
      intro x y; rw [hs0, hs1, h0]; ring
    cases upper
    · show copy_simple_kernel_lower A.size0 A.data (r * A.stride0 + c * A.stride1) = _
      rw [off r c, h0, copy_lower_at A.data hr hc]
      simp only [Tensor.elem, off c r, off r c]
      by_cases h : r < c
      · rw [if_pos h, if_pos (by simp [h])]
      · rw [if_neg h, if_neg (by simp [h])]
    · show copy_simple_kernel_upper A.size0 A.data (r * A.stride0 + c * A.stride1) = _
      rw [off r c, h0, copy_upper_at A.data hr hc]
      simp only [Tensor.elem, off c r, off r c]
      by_cases h : c < r
      · rw [if_pos h, if_pos (by simp [h])]
      · rw [if_neg h, if_neg (by simp [h])]
  · obtain ⟨hs1, hs0⟩ := hcc
    by_cases hone : A.stride0 = 1
    · -- degenerate square case: `stride0 = size1 = 1`, so `n = 1` and the
      -- tensor is also column-contiguous; the kernel touches nothing.
      have hn : n = 1 := by rw [← h1, ← hs0, hone]
      rw [cuda_copy_triang_ok_f A upper hcuda hone]
      refine ⟨_, rfl, rfl, rfl, rfl, rfl, rfl, ?_⟩
      intro r c hr hc
      have hr0 : r = 0 := by omega
      have hc0 : c = 0 := by omega
      subst hr0 hc0 hn
      have off0 : (0 : Nat) * A.stride0 + 0 * A.stride1 = 0 := by ring
      cases upper
      · show copy_simple_kernel_lower A.size0 A.data
          (0 * A.stride0 + 0 * A.stride1) = _
        rw [off0, h0]
        have h00 : (0 : Nat) + 0 * 1 = 0 := by ring
        rw [show (0 : Nat) = 0 + 0 * 1 from by ring, copy_lower_at A.data
          (by omega) (by omega)]
        simp [Tensor.elem, off0]
      · show copy_simple_kernel_upper A.size0 A.data
          (0 * A.stride0 + 0 * A.stride1) = _
        rw [off0, h0]
        rw [show (0 : Nat) = 0 + 0 * 1 from by ring, copy_upper_at A.data
          (by omega) (by omega)]
        simp [Tensor.elem, off0]
    · rw [cuda_copy_triang_ok_c A upper hcuda hone]
      refine ⟨_, rfl, rfl, rfl, rfl, rfl, rfl, ?_⟩
      intro r c hr hc
      have off : ∀ x y : Nat, x * A.stride0 + y * A.stride1 = y + x * n := by
        intro x y; rw [hs0, hs1, h1]; ring
      cases upper
      · show copy_simple_kernel_upper A.size1 A.data
          (r * A.stride0 + c * A.stride1) = _
        rw [off r c, h1, copy_upper_at A.data hc hr]
        simp only [Tensor.elem, off c r, off r c]
        by_cases h : r < c
        · rw [if_pos h, if_pos (by simp [h])]
        · rw [if_neg h, if_neg (by simp [h])]
      · show copy_simple_kernel_lower A.size1 A.data
          (r * A.stride0 + c * A.stride1) = _
        rw [off r c, h1, copy_lower_at A.data hc hr]
        simp only [Tensor.elem, off c r, off r c]
        by_cases h : c < r
        · rw [if_pos h, if_pos (by simp [h])]
        · rw [if_neg h, if_neg (by simp [h])]

/-- C1: for every square CUDA-resident contiguous matrix `A` and either
half `H`, `cuda_copy_triang` copies each off-diagonal element of half `H`
onto its mirror position in the opposite half: the result equals its own
transpose, and every element of the `H` half (diagonal included) is
unchanged from the input. -/
theorem claim_C1_copy_triang_symmetric (A : Tensor) (upper : Bool) (n : Nat)
    (hcuda : A.isCuda = true) (h0 : A.size0 = n) (h1 : A.size1 = n)
    (hlay : A.fContig ∨ A.cContig) :
    ∃ B, cuda_copy_triang A upper = Except.ok B ∧
      (∀ r c, r < n → c < n → B.elem r c = B.elem c r) ∧
      (∀ r c, r < n → c < n → (if upper then r ≤ c else c ≤ r) →
        B.elem r c = A.elem r c) := by
  obtain ⟨B, hok, _, _, _, _, _, helem⟩ :=
    cuda_copy_triang_elem A upper n hcuda h0 h1 hlay
  refine ⟨B, hok, ?_, ?_⟩
  · intro r c hr hc
    rw [helem r c hr hc, helem c r hc hr]
    cases upper
    · rcases Nat.lt_trichotomy r c with h | h | h
      · rw [if_pos (by simp [h]), if_neg (by simp [Nat.lt_asymm h])]
      · subst h; simp
      · rw [if_neg (by simp [Nat.lt_asymm h]), if_pos (by simp [h])]
    · rcases Nat.lt_trichotomy r c with h | h | h
      · rw [if_neg (by simp [Nat.lt_asymm h]), if_pos (by simp [h])]
      · subst h; simp
      · rw [if_pos (by simp [h]), if_neg (by simp [Nat.lt_asymm h])]
  · intro r c hr hc hhalf
    rw [helem r c hr hc]
    cases upper <;> simp at hhalf <;>
      exact if_neg (by simp; omega)

/-- A concrete 2×2 column-major CUDA tensor used to witness the claims. -/
def sampleF2 : Tensor :=
  { size0 := 2, size1 := 2, stride0 := 1, stride1 := 2,
    device := 0, isCuda := true, data := fun idx => (idx : ℚ) }

/-- Witness for C1 at a concrete input: `sampleF2` with the upper half. -/
theorem claim_C1_witness :
    (sampleF2.isCuda = true ∧ sampleF2.size0 = 2 ∧ sampleF2.size1 = 2 ∧
      (sampleF2.fContig ∨ sampleF2.cContig)) ∧
    (∃ B, cuda_copy_triang sampleF2 true = Except.ok B ∧
      (∀ r c, r < 2 → c < 2 → B.elem r c = B.elem c r) ∧
      (∀ r c, r < 2 → c < 2 → (if (true : Bool) then r ≤ c else c ≤ r) →
        B.elem r c = sampleF2.elem r c)) :=
  ⟨⟨rfl, rfl, rfl, Or.inl ⟨rfl, rfl⟩⟩,
   claim_C1_copy_triang_symmetric sampleF2 true 2 rfl rfl rfl
     (Or.inl ⟨rfl, rfl⟩)⟩

/-- The region scaled by `cuda_mul_triang`: the designated half, with the
diagonal excluded exactly when `preserve_diag` is set. -/
def scaledRegion (upper preserve_diag : Bool) (r c : Nat) : Prop :=
  if upper then (if preserve_diag then r < c else r ≤ c)
  else (if preserve_diag then c < r else c ≤ r)

instance (upper preserve_diag : Bool) (r c : Nat) :
    Decidable (scaledRegion upper preserve_diag r c) := by
  unfold scaledRegion; infer_instance

/-- The four-way kernel dispatch of `cuda_mul_triang`, evaluated at
element `(r, c)` of an `n × n` column-major buffer. -/
theorem mul_dispatch_at (upper preserve_diag : Bool) (n : Nat) (m : ℚ)
    (data : Nat → ℚ) {r c : Nat} (hr : r < n) (hc : c < n) :
    (if upper && preserve_diag then mul_upper n m data
     else if upper then mul_upper_diag n m data
     else if preserve_diag then mul_lower n m data
     else mul_lower_diag n m data) (r + c * n) =
      if scaledRegion upper preserve_diag r c
      then data (r + c * n) * m else data (r + c * n) := by
  cases upper <;> cases preserve_diag
  · show mul_lower_diag n m data (r + c * n) = _
    rw [mul_lower_diag_at m data hr hc]; simp [scaledRegion]
  · show mul_lower n m data (r + c * n) = _
    rw [mul_lower_at m data hr hc]; simp [scaledRegion]
  · show mul_upper_diag n m data (r + c * n) = _
    rw [mul_upper_diag_at m data hr hc]; simp [scaledRegion]
  · show mul_upper n m data (r + c * n) = _
    rw [mul_upper_at m data hr hc]; simp [scaledRegion]

/-- Flipping the half designator mirrors the scaled region. -/
theorem scaledRegion_not (upper preserve_diag : Bool) (r c : Nat) :
    scaledRegion (!upper) preserve_diag c r ↔
      scaledRegion upper preserve_diag r c := by
  cases upper <;> cases preserve_diag <;> simp [scaledRegion]

/-- Pointwise description of `cuda_mul_triang` on a square contiguous
CUDA tensor, both storage orders: elements of the scaled region are
multiplied by `m`, all others are untouched. -/
theorem cuda_mul_triang_elem (A : Tensor) (upper preserve_diag : Bool)
    (m : ℚ) (n : Nat)
    (hcuda : A.isCuda = true) (h0 : A.size0 = n) (h1 : A.size1 = n)
    (hlay : A.fContig ∨ A.cContig) :
    ∃ B, cuda_mul_triang A upper preserve_diag m = Except.ok B ∧
      B.size0 = A.size0 ∧ B.size1 = A.size1 ∧ B.stride0 = A.stride0 ∧
      B.stride1 = A.stride1 ∧ B.isCuda = A.isCuda ∧
      ∀ r c, r < n → c < n →
        B.elem r c =
          if scaledRegion upper preserve_diag r c
          then A.elem r c * m else A.elem r c := by
  rcases hlay with hf | hcc
  · obtain ⟨hs0, hs1⟩ := hf
    rw [cuda_mul_triang_ok_f A upper preserve_diag m hcuda hs0]
    refine ⟨_, rfl, rfl, rfl, rfl, rfl, rfl, ?_⟩
    intro r c hr hc
    have off : ∀ x y : Nat, x * A.stride0 + y * A.stride1 = x + y * n := by
      intro x y; rw [hs0, hs1, h0]; ring
    show (if upper && preserve_diag then mul_upper A.size0 m A.data
          else if upper then mul_upper_diag A.size0 m A.data
          else if preserve_diag then mul_lower A.size0 m A.data
          else mul_lower_diag A.size0 m A.data)
        (r * A.stride0 + c * A.stride1) = _
    rw [off r c, h0, mul_dispatch_at upper preserve_diag n m A.data hr hc]
    simp only [Tensor.elem, off]
  · obtain ⟨hs1, hs0⟩ := hcc
    by_cases hone : A.stride0 = 1
    · have hn : n = 1 := by rw [← h1, ← hs0, hone]
      rw [cuda_mul_triang_ok_f A upper preserve_diag m hcuda hone]
      refine ⟨_, rfl, rfl, rfl, rfl, rfl, rfl, ?_⟩
      intro r c hr hc
      have hr0 : r = 0 := by omega
      have hc0 : c = 0 := by omega
      subst hr0 hc0 hn
      have off0 : (0 : Nat) * A.stride0 + 0 * A.stride1 = 0 + 0 * 1 := by
        ring
      show (if upper && preserve_diag then mul_upper A.size0 m A.data
            else if upper then mul_upper_diag A.size0 m A.data
            else if preserve_diag then mul_lower A.size0 m A.data
            else mul_lower_diag A.size0 m A.data)
          (0 * A.stride0 + 0 * A.stride1) = _
      rw [off0, h0,
        mul_dispatch_at upper preserve_diag 1 m A.data (by omega) (by omega)]
      simp only [Tensor.elem]
      norm_num
    · rw [cuda_mul_triang_ok_c A upper preserve_diag m hcuda hone]
      refine ⟨_, rfl, rfl, rfl, rfl, rfl, rfl, ?_⟩
      intro r c hr hc
      have off : ∀ x y : Nat, x * A.stride0 + y * A.stride1 = y + x * n := by
        intro x y; rw [hs0, hs1, h1]; ring
      show (if (!upper) && preserve_diag then mul_upper A.size0 m A.data
            else if !upper then mul_upper_diag A.size0 m A.data
            else if preserve_diag then mul_lower A.size0 m A.data
            else mul_lower_diag A.size0 m A.data)
          (r * A.stride0 + c * A.stride1) = _

      rw [off r c, h0,
        mul_dispatch_at (!upper) preserve_diag n m A.data hc hr]
      by_cases hs : scaledRegion upper preserve_diag r c
      · rw [if_pos ((scaledRegion_not upper preserve_diag r c).mpr hs),
          if_pos hs]
        simp only [Tensor.elem, off]
      · rw [if_neg (fun k =>
            hs ((scaledRegion_not upper preserve_diag r c).mp k)),
          if_neg hs]
        simp only [Tensor.elem, off]

/-- C2: `cuda_mul_triang` multiplies exactly the designated half by `m`
(diagonal included exactly when `preserve_diag` is false) and leaves the
opposite strict half unchanged, on square contiguous CUDA tensors of
either storage order. -/
theorem claim_C2_mul_triang_scales (A : Tensor) (upper preserve_diag : Bool)
    (m : ℚ) (n : Nat)
    (hcuda : A.isCuda = true) (h0 : A.size0 = n) (h1 : A.size1 = n)
    (hlay : A.fContig ∨ A.cContig) :
    ∃ B, cuda_mul_triang A upper preserve_diag m = Except.ok B ∧
      (∀ r c, r < n → c < n → scaledRegion upper preserve_diag r c →
        B.elem r c = A.elem r c * m) ∧
      (∀ r c, r < n → c < n → ¬ scaledRegion upper preserve_diag r c →
        B.elem r c = A.elem r c) := by
  obtain ⟨B, hok, _, _, _, _, _, helem⟩ :=
    cuda_mul_triang_elem A upper preserve_diag m n hcuda h0 h1 hlay
  exact ⟨B, hok,
    fun r c hr hc hs => by rw [helem r c hr hc, if_pos hs],
    fun r c hr hc hs => by rw [helem r c hr hc, if_neg hs]⟩

/-- The 3×3 all-ones column-major CUDA tensor of the spec's scenario. -/
def ones3 : Tensor :=
  { size0 := 3, size1 := 3, stride0 := 1, stride1 := 3,
    device := 0, isCuda := true, data := fun _ => 1 }

/-- Witness for C2: the spec's scenario — 3×3 all-ones, lower half,
preserve-diag false, multiplier 2: the lower half including the diagonal
becomes `1 * 2`, the strict upper half stays `1`. -/
theorem claim_C2_witness :
    (ones3.isCuda = true ∧ ones3.size0 = 3 ∧ ones3.size1 = 3 ∧
      (ones3.fContig ∨ ones3.cContig)) ∧
    (∃ B, cuda_mul_triang ones3 false false 2 = Except.ok B ∧
      (∀ r c, r < 3 → c < 3 → scaledRegion false false r c →
        B.elem r c = ones3.elem r c * 2) ∧
      (∀ r c, r < 3 → c < 3 → ¬ scaledRegion false false r c →
        B.elem r c = ones3.elem r c)) :=
  ⟨⟨rfl, rfl, rfl, Or.inl ⟨rfl, rfl⟩⟩,
   claim_C2_mul_triang_scales ones3 false false 2 3 rfl rfl rfl
     (Or.inl ⟨rfl, rfl⟩)⟩

/-- C9 as stated is false at multiplier `m = 0`: scaling the 3×3 all-ones
matrix by `0` and then dividing the affected region by `0` does not
return the original matrix (element `(0,0)` is in the affected region,
ends at `0`, and `0 / 0 ≠ 1`). -/
theorem claim_C9_counterexample :
    ∃ B, cuda_mul_triang ones3 false false 0 = Except.ok B ∧
      scaledRegion false false 0 0 ∧
      B.elem 0 0 / 0 ≠ ones3.elem 0 0 := by
  refine ⟨_, rfl, by simp [scaledRegion], ?_⟩
  intro h
  simp [Tensor.elem, ones3, cuda_mul_triang, mul_lower_diag] at h

/-- C9 (amended: nonzero multiplier): scaling the designated region by
`m ≠ 0` then dividing it element-wise by `m` returns the original
matrix; elements outside the region — in particular the diagonal when
`preserve_diag` is set — are untouched, hence bit-identical. -/
theorem claim_C9_scale_div_roundtrip (A : Tensor)
    (upper preserve_diag : Bool) (m : ℚ) (n : Nat) (hm : m ≠ 0)
    (hcuda : A.isCuda = true) (h0 : A.size0 = n) (h1 : A.size1 = n)
    (hlay : A.fContig ∨ A.cContig) :
    ∃ B, cuda_mul_triang A upper preserve_diag m = Except.ok B ∧
      (∀ r c, r < n → c < n → scaledRegion upper preserve_diag r c →
        B.elem r c / m = A.elem r c) ∧
      (∀ r c, r < n → c < n → ¬ scaledRegion upper preserve_diag r c →
        B.elem r c = A.elem r c) ∧
      (preserve_diag = true → ∀ r, r < n → B.elem r r = A.elem r r) := by
  obtain ⟨B, hok, _, _, _, _, _, helem⟩ :=
    cuda_mul_triang_elem A upper preserve_diag m n hcuda h0 h1 hlay
  refine ⟨B, hok,
    fun r c hr hc hs => ?_,
    fun r c hr hc hs => by rw [helem r c hr hc, if_neg hs],
    fun hp r hr => ?_⟩
  · rw [helem r c hr hc, if_pos hs, mul_div_assoc, div_self hm, mul_one]
  · subst hp
    rw [helem r r hr hr, if_neg (by cases upper <;> simp [scaledRegion])]

/-- Witness for C9 (amended) at `ones3`, lower half, preserve-diag true,
multiplier 2. -/
theorem claim_C9_witness :
    ((2 : ℚ) ≠ 0 ∧ ones3.isCuda = true ∧ ones3.size0 = 3 ∧
      ones3.size1 = 3 ∧ (ones3.fContig ∨ ones3.cContig)) ∧
    (∃ B, cuda_mul_triang ones3 false true 2 = Except.ok B ∧
      (∀ r c, r < 3 → c < 3 → scaledRegion false true r c →
        B.elem r c / 2 = ones3.elem r c) ∧
      (∀ r c, r < 3 → c < 3 → ¬ scaledRegion false true r c →
        B.elem r c = ones3.elem r c) ∧
      (true = true → ∀ r, r < 3 → B.elem r r = ones3.elem r r)) :=
  ⟨⟨by norm_num, rfl, rfl, rfl, Or.inl ⟨rfl, rfl⟩⟩,
   claim_C9_scale_div_roundtrip ones3 false true 2 3 (by norm_num) rfl rfl
     rfl (Or.inl ⟨rfl, rfl⟩)⟩

/-!
## Idempotence of the triangular copy kernels
-/

theorem copy_lower_idem (n : Nat) (d : Nat → ℚ) :
    copy_simple_kernel_lower n (copy_simple_kernel_lower n d) =
      copy_simple_kernel_lower n d := by
  funext idx
  simp only [copy_simple_kernel_lower]
  by_cases h : idx / n < n ∧ idx % n < idx / n
  · simp only [if_pos h, flat_div (idx % n) h.1, flat_mod (idx % n) h.1]
    exact if_neg (fun hh => absurd hh.2 (Nat.lt_asymm h.2))
  · simp only [if_neg h]

theorem copy_upper_idem (n : Nat) (d : Nat → ℚ) :
    copy_simple_kernel_upper n (copy_simple_kernel_upper n d) =
      copy_simple_kernel_upper n d := by
  funext idx
  simp only [copy_simple_kernel_upper]
  by_cases h : idx / n < idx % n ∧ idx % n < n
  · have hkn : idx / n < n := Nat.lt_trans h.1 h.2
    simp only [if_pos h, Nat.add_comm (idx % n * n) (idx / n),
      flat_div (idx % n) hkn, flat_mod (idx % n) hkn]
    exact if_neg (fun hh => absurd hh.1 (Nat.lt_asymm h.1))
  · simp only [if_neg h]

/-- C10: `cuda_copy_triang` is idempotent — applying it a second time to
the result of a first application returns that result unchanged. -/
theorem claim_C10_copy_triang_idempotent (A : Tensor) (upper : Bool)
    (n : Nat) (hcuda : A.isCuda = true) (h0 : A.size0 = n)
    (h1 : A.size1 = n) (B : Tensor)
    (hok : cuda_copy_triang A upper = Except.ok B) :
    cuda_copy_triang B upper = Except.ok B := by
  by_cases hs : A.stride0 = 1
  · rw [cuda_copy_triang_ok_f A upper hcuda hs] at hok
    have hBe := Except.ok.inj hok
    have hBcuda : B.isCuda = true := by rw [← hBe]; exact hcuda
    have hBs : B.stride0 = 1 := by rw [← hBe]; exact hs
    have hBsz : B.size0 = A.size0 := by rw [← hBe]
    have hBdata : B.data =
        (if upper then copy_simple_kernel_upper A.size0 A.data
         else copy_simple_kernel_lower A.size0 A.data) := by
      rw [← hBe]
    rw [cuda_copy_triang_ok_f B upper hBcuda hBs]
    have hkey : (if upper then copy_simple_kernel_upper B.size0 B.data
                 else copy_simple_kernel_lower B.size0 B.data) = B.data := by
      rw [hBsz, hBdata]
      cases upper
      · simpa using copy_lower_idem A.size0 A.data
      · simpa using copy_upper_idem A.size0 A.data
    rw [hkey]
  · rw [cuda_copy_triang_ok_c A upper hcuda hs] at hok
    have hBe := Except.ok.inj hok
    have hBcuda : B.isCuda = true := by rw [← hBe]; exact hcuda
    have hBs : ¬ B.stride0 = 1 := by rw [← hBe]; exact hs
    have hBsz : B.size1 = A.size1 := by rw [← hBe]
    have hBdata : B.data =
        (if upper then copy_simple_kernel_lower A.size1 A.data
         else copy_simple_kernel_upper A.size1 A.data) := by
      rw [← hBe]
    rw [cuda_copy_triang_ok_c B upper hBcuda hBs]
    have hkey : (if upper then copy_simple_kernel_lower B.size1 B.data
                 else copy_simple_kernel_upper B.size1 B.data) = B.data := by
      rw [hBsz, hBdata]
      cases upper
      · simpa using copy_upper_idem A.size1 A.data
      · simpa using copy_lower_idem A.size1 A.data
    rw [hkey]

/-- Witness for C10 at `sampleF2` with the lower half. -/
theorem claim_C10_witness :
    (sampleF2.isCuda = true ∧ sampleF2.size0 = 2 ∧ sampleF2.size1 = 2 ∧
      cuda_copy_triang sampleF2 false = Except.ok
        { sampleF2 with
          data := copy_simple_kernel_lower 2 sampleF2.data }) ∧
    cuda_copy_triang
        { sampleF2 with
          data := copy_simple_kernel_lower 2 sampleF2.data } false =
      Except.ok
        { sampleF2 with
          data := copy_simple_kernel_lower 2 sampleF2.data } :=
  ⟨⟨rfl, rfl, rfl, rfl⟩,
   claim_C10_copy_triang_idempotent sampleF2 false 2 rfl rfl rfl _ rfl⟩

/-- C3: `cuda_transpose` fills the caller-supplied `n1 × n0` output with
the exact transpose of the `n0 × n1` input, for matching contiguous
layouts of either storage order (selecting the column-major or the
row-major kernel variant accordingly). -/
theorem claim_C3_transpose_exact (input output : Tensor) (n0 n1 : Nat)
    (hci : input.isCuda = true) (hco : output.isCuda = true)
    (hi0 : input.size0 = n0) (hi1 : input.size1 = n1)
    (ho0 : output.size0 = n1) (ho1 : output.size1 = n0)
    (hlay : (input.fContig ∧ output.fContig) ∨
            (input.cContig ∧ output.cContig)) :
    ∃ B, cuda_transpose input output = Except.ok B ∧
      ∀ i j, i < n0 → j < n1 → B.elem j i = input.elem i j := by
  rw [cuda_transpose_ok input output hci hco (by rw [hi0, ho1])
    (by rw [hi1, ho0])]
  refine ⟨_, rfl, ?_⟩
  intro i j hi hj
  rcases hlay with ⟨⟨hif0, hif1⟩, hof0, hof1⟩ | ⟨⟨hic1, hic0⟩, hoc1, hoc0⟩
  · show (if input.stride0 = 1 then
        matrix_transpose_f input.size0 input.size1 input.data output.data
      else
        matrix_transpose_c input.size0 input.size1 input.data output.data)
      (j * output.stride0 + i * output.stride1) = _
    rw [if_pos hif0]
    have hoff : j * output.stride0 + i * output.stride1 = j + i * n1 := by
      rw [hof0, hof1, ho0]; ring
    rw [hoff, hi0, hi1]
    simp only [matrix_transpose_f]
    rw [flat_mod i hj, flat_div i hj, if_pos ⟨hj, hi⟩]
    simp only [Tensor.elem, hif0, hif1, hi0]
    exact congrArg input.data (by ring)
  · by_cases hone : input.stride0 = 1
    · have hn1 : n1 = 1 := by rw [← hi1, ← hic0, hone]
      subst hn1
      have hj0 : j = 0 := by omega
      subst hj0
      show (if input.stride0 = 1 then
          matrix_transpose_f input.size0 input.size1 input.data output.data
        else
          matrix_transpose_c input.size0 input.size1 input.data output.data)
        (0 * output.stride0 + i * output.stride1) = _
      rw [if_pos hone]
      have hoff : 0 * output.stride0 + i * output.stride1 = 0 + i * 1 := by
        rw [hoc1]; ring
      rw [hoff, hi0, hi1]
      simp only [matrix_transpose_f]
      rw [flat_mod i (by omega), flat_div i (by omega),
        if_pos ⟨by omega, hi⟩]
      simp only [Tensor.elem, hone, hic1]
      exact congrArg input.data (by ring)
    · show (if input.stride0 = 1 then
          matrix_transpose_f input.size0 input.size1 input.data output.data
        else
          matrix_transpose_c input.size0 input.size1 input.data output.data)
        (j * output.stride0 + i * output.stride1) = _
      rw [if_neg hone]
      have hoff : j * output.stride0 + i * output.stride1 = i + j * n0 := by
        rw [hoc1, hoc0, ho1]; ring
      rw [hoff, hi0, hi1]
      simp only [matrix_transpose_c]
      rw [flat_mod j hi, flat_div j hi, if_pos ⟨hi, hj⟩]
      simp only [Tensor.elem, hic1, hic0, hi1]
      exact congrArg input.data (by ring)

/-- The 2×3 row-major CUDA input of the spec's transpose scenario:
elements 1..6, i.e. [[1,2,3],[4,5,6]]. -/
def inC23 : Tensor :=
  { size0 := 2, size1 := 3, stride0 := 3, stride1 := 1,
    device := 0, isCuda := true, data := fun idx => (idx : ℚ) + 1 }

/-- A 3×2 row-major zero-initialised CUDA output buffer. -/
def outC32 : Tensor :=
  { size0 := 3, size1 := 2, stride0 := 2, stride1 := 1,
    device := 0, isCuda := true, data := fun _ => 0 }

/-- Witness for C3: the spec's scenario — transposing the 2×3 row-major
matrix [[1,2,3],[4,5,6]] into a 3×2 row-major output. -/
theorem claim_C3_witness :
    (inC23.isCuda = true ∧ outC32.isCuda = true ∧
      inC23.size0 = 2 ∧ inC23.size1 = 3 ∧ outC32.size0 = 3 ∧
      outC32.size1 = 2 ∧
      ((inC23.fContig ∧ outC32.fContig) ∨
        (inC23.cContig ∧ outC32.cContig))) ∧
    (∃ B, cuda_transpose inC23 outC32 = Except.ok B ∧
      ∀ i j, i < 2 → j < 3 → B.elem j i = inC23.elem i j) :=
  ⟨⟨rfl, rfl, rfl, rfl, rfl, rfl, Or.inr ⟨⟨rfl, rfl⟩, ⟨rfl, rfl⟩⟩⟩,
   claim_C3_transpose_exact inC23 outC32 2 3 rfl rfl rfl rfl rfl rfl
     (Or.inr ⟨⟨rfl, rfl⟩, ⟨rfl, rfl⟩⟩)⟩

/-- C8: `cuda_transpose` rejects an output whose dimensions are not
exactly the swapped input dimensions, returning the shape-mismatch error
(and hence no kernel runs and no output element is written). -/
theorem claim_C8_transpose_shape_check (input output : Tensor)
    (hci : input.isCuda = true) (hco : output.isCuda = true)
    (hmm : input.size0 ≠ output.size1 ∨ input.size1 ≠ output.size0) :
    cuda_transpose input output =
      Except.error "Input and output matrices must be of the same size." := by
  simp [cuda_transpose, hci, hco, hmm]

/-- A 2×2 column-major CUDA buffer: a wrongly-shaped transpose output
for a 2×3 input. -/
def badOut22 : Tensor :=
  { size0 := 2, size1 := 2, stride0 := 1, stride1 := 2,
    device := 0, isCuda := true, data := fun _ => 0 }

/-- Witness for C8: transposing a 2×3 input into a 2×2 output fails with
the shape-mismatch error. -/
theorem claim_C8_witness :
    (inC23.isCuda = true ∧ badOut22.isCuda = true ∧
      (inC23.size0 ≠ badOut22.size1 ∨ inC23.size1 ≠ badOut22.size0)) ∧
    cuda_transpose inC23 badOut22 =
      Except.error "Input and output matrices must be of the same size." :=
  ⟨⟨rfl, rfl, by decide⟩,
   claim_C8_transpose_shape_check inC23 badOut22 rfl rfl (by decide)⟩

/-- A non-square (2×3) column-major CUDA tensor. -/
def rect23 : Tensor :=
  { size0 := 2, size1 := 3, stride0 := 1, stride1 := 2,
    device := 0, isCuda := true, data := fun idx => (idx : ℚ) }

/-- C5 as stated is false: neither `cuda_copy_triang` nor
`cuda_mul_triang` checks squareness — on a concrete non-square CUDA
matrix both return successfully instead of failing with a shape error. -/
theorem claim_C5_counterexample :
    rect23.size0 ≠ rect23.size1 ∧ rect23.isCuda = true ∧
    (∃ B, cuda_copy_triang rect23 true = Except.ok B) ∧
    (∃ B, cuda_mul_triang rect23 true false 2 = Except.ok B) :=
  ⟨by decide, rfl, ⟨_, rfl⟩, ⟨_, rfl⟩⟩

/-- C5 (amended): `cuda_copy_triang` and `cuda_mul_triang` validate only
device placement — they succeed if and only if the input is
CUDA-resident, regardless of its shape; non-square inputs are not
rejected. -/
theorem claim_C5_no_shape_check (A : Tensor) (upper preserve_diag : Bool)
    (m : ℚ) :
    (cuda_copy_triang A upper).isOk = A.isCuda ∧
    (cuda_mul_triang A upper preserve_diag m).isOk = A.isCuda := by
  cases hA : A.isCuda <;>
    simp [cuda_copy_triang, cuda_mul_triang, hA, Except.isOk, Except.toBool]

/-- A length-3 CUDA vector (3×1 tensor) on device 0. -/
def vec3 : Tensor :=
  { size0 := 3, size1 := 1, stride0 := 1, stride1 := 1,
    device := 0, isCuda := true, data := fun _ => 1 }

/-- C6 as stated is false: `cuda_vec_mul_triang` never compares the
vector length with the matrix dimension — with a 2×2 matrix and a
length-3 vector on the same device the call succeeds instead of failing
with a length-mismatch error. -/
theorem claim_C6_counterexample :
    vec3.size0 ≠ sampleF2.size0 ∧ sampleF2.isCuda = true ∧
    vec3.isCuda = true ∧ device_of vec3 = device_of sampleF2 ∧
    ∃ B, cuda_vec_mul_triang sampleF2 vec3 true 0 = Except.ok B :=
  ⟨by decide, rfl, rfl, rfl, ⟨_, rfl⟩⟩

/-- C6 (amended): `cuda_vec_mul_triang` validates only device placement
— it succeeds if and only if both arguments are CUDA-resident and on the
same device; a vector length differing from the matrix dimension is not
detected. -/
theorem claim_C6_no_length_check (A v : Tensor) (upper : Bool)
    (side : Int) :
    (cuda_vec_mul_triang A v upper side).isOk =
      (A.isCuda && v.isCuda && (device_of v == device_of A)) := by
  cases hA : A.isCuda <;> cases hv : v.isCuda <;>
    by_cases hd : device_of v = device_of A <;>
      simp [cuda_vec_mul_triang, hA, hv, hd, Except.isOk, Except.toBool]

/-- A 2×3 column-major CUDA tensor on device 0. -/
def inDev0 : Tensor :=
  { size0 := 2, size1 := 3, stride0 := 1, stride1 := 2,
    device := 0, isCuda := true, data := fun _ => 0 }

/-- A 3×2 column-major CUDA tensor on device 1. -/
def outDev1 : Tensor :=
  { size0 := 3, size1 := 2, stride0 := 1, stride1 := 3,
    device := 1, isCuda := true, data := fun _ => 0 }

/-- C7 as stated is false: `cuda_transpose` takes two tensor arguments
but performs no same-device check — with input on device 0 and output on
device 1 (both CUDA, shapes matching) the call succeeds instead of
failing with a device error. -/
theorem claim_C7_counterexample :
    inDev0.isCuda = true ∧ outDev1.isCuda = true ∧
    device_of inDev0 ≠ device_of outDev1 ∧
    ∃ B, cuda_transpose inDev0 outDev1 = Except.ok B :=
  ⟨rfl, rfl, by decide, ⟨_, rfl⟩⟩

/-- C7 (amended): every entry point verifies that each of its tensor
arguments is CUDA-resident and fails fast otherwise;
`cuda_vec_mul_triang` additionally verifies that its two arguments share
a device, but `cuda_transpose` runs without comparing the devices of its
two arguments. -/
theorem claim_C7_device_validation (A v inp out : Tensor)
    (upper preserve_diag : Bool) (m : ℚ) (side : Int)
    (hsh0 : inp.size0 = out.size1) (hsh1 : inp.size1 = out.size0) :
    (A.isCuda = false → (cuda_copy_triang A upper).isOk = false) ∧
    (A.isCuda = false →
      (cuda_mul_triang A upper preserve_diag m).isOk = false) ∧
    ((A.isCuda = false ∨ v.isCuda = false ∨ device_of v ≠ device_of A) →
      (cuda_vec_mul_triang A v upper side).isOk = false) ∧
    ((inp.isCuda = false ∨ out.isCuda = false) →
      (cuda_transpose inp out).isOk = false) ∧
    (inp.isCuda = true → out.isCuda = true →
      (cuda_transpose inp out).isOk = true) := by
  refine ⟨fun hA => ?_, fun hA => ?_, fun h => ?_, fun h => ?_,
    fun hi ho => ?_⟩
  · simp [cuda_copy_triang, hA, Except.isOk, Except.toBool]
  · simp [cuda_mul_triang, hA, Except.isOk, Except.toBool]
  · rcases h with hA | hv | hd
    · simp [cuda_vec_mul_triang, hA, Except.isOk, Except.toBool]
    · cases hA : A.isCuda <;>
        simp [cuda_vec_mul_triang, hA, hv, Except.isOk, Except.toBool]
    · cases hA : A.isCuda <;> cases hv : v.isCuda <;>
        simp [cuda_vec_mul_triang, hA, hv, hd, Except.isOk, Except.toBool]
  · rcases h with hi | ho
    · simp [cuda_transpose, hi, Except.isOk, Except.toBool]
    · cases hi : inp.isCuda <;>
        simp [cuda_transpose, hi, ho, Except.isOk, Except.toBool]
  · simp [cuda_transpose, hi, ho, hsh0, hsh1, Except.isOk, Except.toBool]

/-- Witness for C7 (amended), instantiated with a non-CUDA tensor, a
same-device pair, and the matched-shape pair `inDev0`/`outDev1`. -/
theorem claim_C7_witness :
    (inDev0.size0 = outDev1.size1 ∧ inDev0.size1 = outDev1.size0) ∧
    ((rect23.isCuda = false →
        (cuda_copy_triang rect23 true).isOk = false) ∧
     (rect23.isCuda = false →
        (cuda_mul_triang rect23 true false 2).isOk = false) ∧
     ((rect23.isCuda = false ∨ vec3.isCuda = false ∨
        device_of vec3 ≠ device_of rect23) →
        (cuda_vec_mul_triang rect23 vec3 true 0).isOk = false) ∧
     ((inDev0.isCuda = false ∨ outDev1.isCuda = false) →
        (cuda_transpose inDev0 outDev1).isOk = false) ∧
     (inDev0.isCuda = true → outDev1.isCuda = true →
        (cuda_transpose inDev0 outDev1).isOk = true)) :=
  ⟨⟨rfl, rfl⟩,
   claim_C7_device_validation rect23 vec3 inDev0 outDev1 true false 2 0
     rfl rfl⟩

/-!
## The triangular index mapper

`tri_row i` is the unique `r` with `r*(r+1)/2 ≤ i < (r+1)*(r+2)/2`.
-/

theorem tri_succ (r : Nat) : (r + 1) * (r + 2) / 2 = r * (r + 1) / 2 + (r + 1) := by
  obtain ⟨t1, ht1⟩ : ∃ t, r * (r + 1) = t := ⟨_, rfl⟩
  obtain ⟨t2, ht2⟩ : ∃ t, (r + 1) * (r + 2) = t := ⟨_, rfl⟩
  obtain ⟨k, hk⟩ := Nat.even_mul_succ_self r
  rw [ht1] at hk
  have e : t2 = t1 + 2 * (r + 1) := by rw [← ht1, ← ht2]; ring
  rw [ht1, ht2]
  omega

theorem tri_mono {a b : Nat} (h : a ≤ b) : a * (a + 1) / 2 ≤ b * (b + 1) / 2 :=
  Nat.div_le_div_right (Nat.mul_le_mul h (by omega))

theorem tri_row_spec (i : Nat) :
    tri_row i * (tri_row i + 1) / 2 ≤ i ∧
      i < (tri_row i + 1) * (tri_row i + 2) / 2 := by
  have h1 : Nat.sqrt (8 * i + 1) * Nat.sqrt (8 * i + 1) ≤ 8 * i + 1 :=
    Nat.sqrt_le _
  have h2 : 8 * i + 1 <
      (Nat.sqrt (8 * i + 1) + 1) * (Nat.sqrt (8 * i + 1) + 1) :=
    Nat.lt_succ_sqrt _
  have hs1 : 1 ≤ Nat.sqrt (8 * i + 1) :=
    Nat.le_sqrt.mpr (by omega)
  simp only [tri_row]
  set s := Nat.sqrt (8 * i + 1) with hs
  set r := (s - 1) / 2 with hr
  obtain ⟨t1, ht1⟩ : ∃ t, r * (r + 1) = t := ⟨_, rfl⟩
  obtain ⟨t2, ht2⟩ : ∃ t, (r + 1) * (r + 2) = t := ⟨_, rfl⟩
  have e4 : t2 = t1 + 2 * (r + 1) := by rw [← ht1, ← ht2]; ring
  have even1 : t1 % 2 = 0 := by
    obtain ⟨k, hk⟩ := Nat.even_mul_succ_self r
    rw [ht1] at hk
    omega
  have hcase : s = 2 * r + 1 ∨ s = 2 * r + 2 := by omega
  rw [ht1, ht2]
  rcases hcase with h | h
  · have q1 : s * s = 4 * t1 + 1 := by rw [h, ← ht1]; ring
    have q2 : (s + 1) * (s + 1) = 4 * t1 + 4 * (r + 1) := by
      rw [h, ← ht1]; ring
    rw [q1] at h1
    rw [q2] at h2
    omega
  · have q1 : s * s = 4 * t1 + 4 * (r + 1) := by rw [h, ← ht1]; ring
    have q2 : (s + 1) * (s + 1) = 4 * t2 + 1 := by rw [h, ← ht2]; ring
    rw [q1] at h1
    rw [q2] at h2
    omega

theorem tri_row_unique (r c : Nat) (hc : c ≤ r) :
    tri_row (r * (r + 1) / 2 + c) = r := by
  set i := r * (r + 1) / 2 + c with hi
  obtain ⟨hlo, hhi⟩ := tri_row_spec i
  rcases Nat.lt_trichotomy (tri_row i) r with h | h | h
  · exfalso
    have h1 : (tri_row i + 1) * (tri_row i + 2) / 2 ≤ r * (r + 1) / 2 :=
      Nat.div_le_div_right (Nat.mul_le_mul (by omega) (by omega))
    have h2 : r * (r + 1) / 2 ≤ i := by rw [hi]; exact Nat.le_add_right _ _
    exact absurd (Nat.lt_of_lt_of_le hhi (Nat.le_trans h1 h2))
      (Nat.lt_irrefl i)
  · exact h
  · exfalso
    have h1 : (r + 1) * (r + 2) / 2 ≤ tri_row i * (tri_row i + 1) / 2 :=
      Nat.div_le_div_right (Nat.mul_le_mul (by omega) (by omega))
    have h3 : i < r * (r + 1) / 2 + (r + 1) := by
      rw [hi]; exact Nat.add_lt_add_left (by omega) _
    rw [← tri_succ r] at h3
    exact absurd (Nat.lt_of_lt_of_le h3 (Nat.le_trans h1 hlo))
      (Nat.lt_irrefl i)

/-- C4: enumerating `tri_index_upper` over `i = 0 .. n*(n+1)/2 - 1`
visits every cell `(r, c)` with `c ≤ r < n` exactly once (no duplicates,
no gaps), and `tri_index_lower` returns the same pair swapped. -/
theorem claim_C4_index_mapper (n : Nat) :
    (∀ i, i < n * (n + 1) / 2 →
      (tri_index_upper i).2 ≤ (tri_index_upper i).1 ∧
      (tri_index_upper i).1 < n) ∧
    (∀ r c, c ≤ r → r < n →
      ∃! i, i < n * (n + 1) / 2 ∧ tri_index_upper i = (r, c)) ∧
    (∀ i, tri_index_lower i =
      ((tri_index_upper i).2, (tri_index_upper i).1)) := by
  refine ⟨fun i hi => ?_, fun r c hc hr => ?_, fun i => rfl⟩
  · obtain ⟨hlo, hhi⟩ := tri_row_spec i
    obtain ⟨T, hT⟩ : ∃ T, tri_row i * (tri_row i + 1) / 2 = T := ⟨_, rfl⟩
    have hsucc := tri_succ (tri_row i)
    rw [hT] at hlo hsucc
    rw [hsucc] at hhi
    simp only [tri_index_upper, hT]
    constructor
    · omega
    · by_contra hge
      have hn : n * (n + 1) / 2 ≤ T := by
        rw [← hT]; exact tri_mono (by omega)
      omega
  · refine ⟨r * (r + 1) / 2 + c, ⟨?_, ?_⟩, fun j hj => ?_⟩
    · obtain ⟨T, hT⟩ : ∃ t, r * (r + 1) / 2 = t := ⟨_, rfl⟩
      obtain ⟨U, hU⟩ : ∃ t, (r + 1) * (r + 2) / 2 = t := ⟨_, rfl⟩
      obtain ⟨V, hV⟩ : ∃ t, n * (n + 1) / 2 = t := ⟨_, rfl⟩
      have h1 : U ≤ V := by
        rw [← hU, ← hV]
        exact Nat.div_le_div_right (Nat.mul_le_mul (by omega) (by omega))
      have h2 : U = T + (r + 1) := by rw [← hU, ← hT]; exact tri_succ r
      rw [hT, hV]
      omega
    · simp only [tri_index_upper, tri_row_unique r c hc, Prod.mk.injEq]
      exact ⟨trivial, by omega⟩
    · obtain ⟨hjlt, hje⟩ := hj
      simp only [tri_index_upper, Prod.mk.injEq] at hje
      obtain ⟨hje1, hje2⟩ := hje
      obtain ⟨hlo, hhi⟩ := tri_row_spec j
      rw [hje1] at hlo hhi hje2
      obtain ⟨T, hT⟩ : ∃ T, r * (r + 1) / 2 = T := ⟨_, rfl⟩
      have h2 := tri_succ r
      rw [hT] at hlo h2 hje2 ⊢
      rw [h2] at hhi
      omega

/-- Witness for C4 at `n = 3`, `i = 4`: the mapper yields the in-range
cell `(2, 1)` and the lower variant swaps it. -/
theorem claim_C4_witness :
    ((4 < 3 * (3 + 1) / 2) ∧
      (tri_index_upper 4).2 ≤ (tri_index_upper 4).1 ∧
      (tri_index_upper 4).1 < 3) ∧
    tri_index_lower 4 = ((tri_index_upper 4).2, (tri_index_upper 4).1) :=
  ⟨⟨by decide, (claim_C4_index_mapper 3).1 4 (by decide)⟩,
   (claim_C4_index_mapper 3).2.2 4⟩

end Falkon
